import Mathlib

/-! MainThreadCallStack: frame-pointer stack capture.

Shallow embedding of `MainThreadCallStack.c` (`read_frames`, `read_thread_state`).

* Addresses and register values are natural numbers (64-bit words in the source; no
  arithmetic on them can overflow here, the only operation being the bitwise mask).
* The memory of the target thread is a map from addresses to optional frame records;
  `none` stands for an address that is not mapped, where a load faults.
* The block returned by `malloc` is a map from word index to word: indices below
  `allocated` are the block itself, larger indices are the heap words that follow it.
* The model keeps a log of what the code does (loads, stores, loop passes, OS calls); these
  fields are observations of the run and never influence the control flow.
-/

namespace MainThreadCallStack

/-- The `MAX_STACK_SIZE` constant of the source. -/
def MAX_STACK_SIZE : Nat := 1024

/-- The `KERN_SUCCESS` code of the Mach kernel interface. -/
def KERN_SUCCESS : Int := 0

/-- A `Frame` record: the saved frame pointer of the caller and the return address. -/
structure Frame where
  previous_frame : Nat
  return_address : Nat
  deriving DecidableEq, Repr

/-- Target memory: the frame record stored at an address, `none` when the address is not mapped. -/
abbrev Memory := Nat → Option Frame

/-- A memory in which every address is mapped. -/
def Memory.ofTotal (m : Nat → Frame) : Memory := fun a => some (m a)

/-- Words of the output block, by index. -/
abbrev Buffer := Nat → Nat

/-- The assignment `b[i] = v`. -/
def Buffer.store (b : Buffer) (i v : Nat) : Buffer := fun j => if j = i then v else b j

/-- State of `read_frames`: the output words, the counter `frames_count`, and the log of the
walk (whether a load faulted, how many times the loop body was entered, the addresses loaded
and the indices of the output block stored to, both in program order). -/
structure Walk where
  frames : Buffer
  frames_count : Nat
  fault : Bool
  iterations : Nat
  loads : List Nat
  stores : List Nat

/-- The `while (1)` loop of `read_frames`. `base` is the offset of the `frames` pointer inside
the output block, `frame` the local copy of the current node. -/
def read_frames_loop (mem : Memory) (base : Nat) (frame : Frame) (w : Walk) : Walk :=
  let w1 : Walk := { w with iterations := w.iterations + 1 }
  let address := frame.return_address &&& 0x7ffffffff
  if address = 0 ∨ frame.previous_frame = 0 then
    w1
  else
    let w2 : Walk := { w1 with loads := w1.loads ++ [frame.previous_frame] }
    match mem frame.previous_frame with
    | none => { w2 with fault := true }
    | some next =>
      if w.frames_count < MAX_STACK_SIZE then
        read_frames_loop mem base next
          { w2 with
            frames := w2.frames.store (base + w.frames_count) address
            frames_count := w.frames_count + 1
            stores := w2.stores ++ [base + w.frames_count] }
      else
        w2
termination_by MAX_STACK_SIZE - w.frames_count
decreasing_by all_goals simp_wf; omega

/-- The function `read_frames(bit_pattern, frames)`, the pointer `frames` being the word at
offset `base` of the block `buf`. The second null test of the source (`!frame_pointer`) is the
first one again, on the same value converted to a pointer. -/
def read_frames (mem : Memory) (bit_pattern : Nat) (buf : Buffer) (base : Nat) : Walk :=
  let w0 : Walk :=
    { frames := buf, frames_count := 0, fault := false, iterations := 0, loads := [], stores := [] }
  if bit_pattern = 0 then
    w0
  else
    let w1 : Walk := { w0 with loads := [bit_pattern] }
    match mem bit_pattern with
    | none => { w1 with fault := true }
    | some frame => read_frames_loop mem base frame w1

/-- The three Mach calls made on the thread port. -/
inductive Call where
  | thread_suspend
  | thread_get_state
  | thread_resume
  deriving DecidableEq, Repr

/-- The registers of `arm_thread_state64_t` that the code reads. -/
structure arm_thread_state64_t where
  __fp : Nat
  __lr : Nat
  __pc : Nat
  deriving DecidableEq, Repr

/-- What one call of `read_thread_state` meets: the codes returned by `thread_suspend` and
`thread_get_state`, the register state the latter fills in, the memory of the target, and the
contents of the block `malloc` hands out (allocation is taken to succeed). -/
structure Target where
  suspend_kr : Int
  get_state_kr : Int
  thread_state : arm_thread_state64_t
  mem : Memory
  heap : Buffer

/-- The `thread_state_result` pair. -/
structure thread_state_result where
  size : Nat
  frames : Buffer

/-- A run of `read_thread_state`: the value returned (`none` when a load faulted and the
process died inside the walk), the Mach calls in order, the number of words requested from
`malloc`, the indices of the block stored to and the addresses loaded, and the number of
passes through the loop body of the walk. -/
structure Run where
  returned : Option thread_state_result
  calls : List Call
  allocated : Nat
  stores : List Nat
  loads : List Nat
  iterations : Nat

/-- The function `read_thread_state(main_thread_mach_port)`. -/
def read_thread_state (t : Target) : Run :=
  let result : Buffer := t.heap
  let allocated := MAX_STACK_SIZE
  if t.suspend_kr ≠ KERN_SUCCESS then
    { returned := some ⟨0, result⟩, calls := [Call.thread_suspend], allocated := allocated,
      stores := [], loads := [], iterations := 0 }
  else if t.get_state_kr ≠ KERN_SUCCESS then
    { returned := some ⟨0, result⟩,
      calls := [Call.thread_suspend, Call.thread_get_state, Call.thread_resume],
      allocated := allocated, stores := [], loads := [], iterations := 0 }
  else
    let pc := t.thread_state.__pc
    let lr := t.thread_state.__lr
    if pc = 0 ∨ lr = 0 then
      { returned := some ⟨0, result⟩,
        calls := [Call.thread_suspend, Call.thread_get_state, Call.thread_resume],
        allocated := allocated, stores := [], loads := [], iterations := 0 }
    else
      let result := (result.store 0 pc).store 1 lr
      let result_length := 2
      let w := read_frames t.mem t.thread_state.__fp result result_length
      if w.fault then
        { returned := none, calls := [Call.thread_suspend, Call.thread_get_state],
          allocated := allocated, stores := [0, 1] ++ w.stores, loads := w.loads,
          iterations := w.iterations }
      else
        { returned := some ⟨result_length + w.frames_count, w.frames⟩,
          calls := [Call.thread_suspend, Call.thread_get_state, Call.thread_resume],
          allocated := allocated, stores := [0, 1] ++ w.stores, loads := w.loads,
          iterations := w.iterations }

/-- Address of the `i`-th node of the chain that starts at `fp` in a fully mapped memory. -/
def addrAt (m : Nat → Frame) (fp : Nat) : Nat → Nat
  | 0 => fp
  | i + 1 => (m (addrAt m fp i)).previous_frame

/-- The `i`-th node of the chain: the record reached from `fp` by following `i` links. -/
def nodeAt (m : Nat → Frame) (fp : Nat) (i : Nat) : Frame := m (addrAt m fp i)

/-- The return address of a node after masking, as computed at the top of the loop body. -/
def masked (f : Frame) : Nat := f.return_address &&& 0x7ffffffff

/-- The test that ends the walk at a node: masked return address zero, or null link. -/
def stops (f : Frame) : Prop := masked f = 0 ∨ f.previous_frame = 0

instance (f : Frame) : Decidable (stops f) := by unfold stops; infer_instance

/-- A memory whose every address holds a frame linked to address 16: the chain that starts
at 16 is a node whose previous-frame link points back to itself. -/
def selfLinked : Nat → Frame := fun _ => ⟨16, 1⟩

/-- A memory holding a chain of five frames at 0x50, 0x40, 0x30, 0x20 and 0x10: each links to
the one 16 bytes below, the frame at 0x10 is the root (null link), and the frame at address
`a` has return address `0x1000 + a`. -/
def fiveFrames : Nat → Frame := fun a => ⟨a - 16, 0x1000 + a⟩

/-- A chain of depth `n` from `fp` as the scenarios describe it: `n` nodes, each with a
non-zero masked return address, the links of the first `n - 1` non-null and the link of the
`n`-th, the root, null. -/
def WellFormedChain (m : Nat → Frame) (fp n : Nat) : Prop :=
  0 < n ∧ fp ≠ 0 ∧ (∀ i, i < n → masked (nodeAt m fp i) ≠ 0) ∧
    (∀ i, i < n - 1 → (nodeAt m fp i).previous_frame ≠ 0) ∧
    (nodeAt m fp (n - 1)).previous_frame = 0

instance (m : Nat → Frame) (fp n : Nat) : Decidable (WellFormedChain m fp n) := by
  unfold WellFormedChain; infer_instance

/-- A chain from `fp` with a cycle: the nodes `0 .. N` exist (non-null links between them),
the link of node `N` points back to node `j`, one of the nodes `0 .. N`, and all these nodes
have a non-zero masked return address. -/
def CyclicChain (m : Nat → Frame) (fp N j : Nat) : Prop :=
  fp ≠ 0 ∧ j ≤ N ∧ (∀ k, k < N → (nodeAt m fp k).previous_frame ≠ 0) ∧
    (nodeAt m fp N).previous_frame = addrAt m fp j ∧
    (∀ k, k < N + 1 → masked (nodeAt m fp k) ≠ 0)

instance (m : Nat → Frame) (fp N j : Nat) : Decidable (CyclicChain m fp N j) := by
  unfold CyclicChain; infer_instance

/-- A memory in which nothing is mapped. -/
def unmapped : Memory := fun _ => none

/-- A memory in which only address 8 is mapped; the frame there links to address 24. -/
def danglingLink : Memory := fun a => if a = 8 then some ⟨24, 1⟩ else none

/-- A memory holding five frames at 0x50, 0x40, 0x30, 0x20 and 0x10 as in `fiveFrames`,
except that the frame at 0x10 links back to the frame at 0x30: from 0x50 the chain enters a
cycle of three frames. -/
def loopBack : Nat → Frame := fun a => ⟨if a = 0x10 then 0x30 else a - 16, 0x1000 + a⟩

/-- The thread of scenario A: frame pointer 0x50 over `fiveFrames`, `lr = 7`, `pc = 9`, both
Mach calls succeeding, the block from `malloc` zeroed. -/
def fiveTarget : Target :=
  ⟨KERN_SUCCESS, KERN_SUCCESS, ⟨0x50, 7, 9⟩, Memory.ofTotal fiveFrames, fun _ => 0⟩

/-- What the loop has done when it was entered at node `c` of the chain with counter `c`
and state `w`, and left in state `r`. -/
structure LoopPost (m : Nat → Frame) (fp base c : Nat) (w r : Walk) : Prop where
  fault_eq : r.fault = w.fault
  count_ge : c ≤ r.frames_count
  count_le : r.frames_count ≤ MAX_STACK_SIZE
  recorded : ∀ i, c ≤ i → i < r.frames_count →
    ¬ stops (nodeAt m fp i) ∧ r.frames (base + i) = masked (nodeAt m fp i)
  untouched : ∀ j, (j < base + c ∨ base + r.frames_count ≤ j) → r.frames j = w.frames j
  ended : r.frames_count = MAX_STACK_SIZE ∨ stops (nodeAt m fp r.frames_count)
  passes : r.iterations = w.iterations + (r.frames_count - c) + 1
  stored : r.stores = w.stores ++ List.range' (base + c) (r.frames_count - c)

/-- The thread of `fiveTarget` when `thread_suspend` returns `KERN_FAILURE` (5). -/
def failedSuspend : Target :=
  ⟨5, KERN_SUCCESS, ⟨0x50, 7, 9⟩, Memory.ofTotal fiveFrames, fun _ => 0⟩

/-- A thread on which both Mach calls succeed, with `pc = 9`, `lr = 7` and frame pointer 8,
in a memory where nothing is mapped. -/
def faultingTarget : Target :=
  ⟨KERN_SUCCESS, KERN_SUCCESS, ⟨8, 7, 9⟩, unmapped, fun _ => 0⟩

/-! ## One pass through the loop body -/

theorem read_frames_loop_stop (mem : Memory) (base : Nat) (frame : Frame) (w : Walk)
    (h : stops frame) :
    read_frames_loop mem base frame w = { w with iterations := w.iterations + 1 } := by
  rw [read_frames_loop]
  simp only [stops, masked] at h
  simp [h]

theorem read_frames_loop_fault (mem : Memory) (base : Nat) (frame : Frame) (w : Walk)
    (h : ¬ stops frame) (hm : mem frame.previous_frame = none) :
    read_frames_loop mem base frame w =
      { w with iterations := w.iterations + 1, loads := w.loads ++ [frame.previous_frame],
               fault := true } := by
  rw [read_frames_loop]
  simp only [stops, masked] at h
  simp [h, hm]

theorem read_frames_loop_step (mem : Memory) (base : Nat) (frame next : Frame) (w : Walk)
    (h : ¬ stops frame) (hm : mem frame.previous_frame = some next)
    (hc : w.frames_count < MAX_STACK_SIZE) :
    read_frames_loop mem base frame w =
      read_frames_loop mem base next
        { w with iterations := w.iterations + 1, loads := w.loads ++ [frame.previous_frame],
                 frames := w.frames.store (base + w.frames_count) (masked frame),
                 frames_count := w.frames_count + 1,
                 stores := w.stores ++ [base + w.frames_count] } := by
  rw [read_frames_loop]
  simp only [stops, masked] at h
  simp [h, hm, hc, masked]

theorem read_frames_loop_full (mem : Memory) (base : Nat) (frame next : Frame) (w : Walk)
    (h : ¬ stops frame) (hm : mem frame.previous_frame = some next)
    (hc : ¬ w.frames_count < MAX_STACK_SIZE) :
    read_frames_loop mem base frame w =
      { w with iterations := w.iterations + 1, loads := w.loads ++ [frame.previous_frame] } := by
  rw [read_frames_loop]
  simp only [stops, masked] at h
  simp [h, hm, hc]

theorem nodeAt_succ (m : Nat → Frame) (fp i : Nat) :
    nodeAt m fp (i + 1) = m (nodeAt m fp i).previous_frame := rfl

theorem ofTotal_apply (m : Nat → Frame) (a : Nat) : Memory.ofTotal m a = some (m a) := rfl

/-! ## The loop on a fully mapped memory -/

theorem read_frames_loop_post (m : Nat → Frame) (fp base : Nat) :
    ∀ (d c : Nat) (w : Walk), MAX_STACK_SIZE - c = d → c ≤ MAX_STACK_SIZE →
      w.frames_count = c →
      LoopPost m fp base c w (read_frames_loop (Memory.ofTotal m) base (nodeAt m fp c) w) := by
  intro d
  induction d with
  | zero =>
    intro c w hd hc hw
    have hcM : c = MAX_STACK_SIZE := by omega
    by_cases hs : stops (nodeAt m fp c)
    · rw [read_frames_loop_stop _ _ _ _ hs]
      refine ⟨rfl, by simp [hw], by simp [hw, hc], ?_, ?_, ?_, ?_, ?_⟩
      · intro i h1 h2; simp only [hw] at h2; omega
      · intro j _; rfl
      · left; simp [hw, hcM]
      · simp [hw]
      · simp [hw]
    · rw [read_frames_loop_full _ _ _ (m (nodeAt m fp c).previous_frame) _ hs
        (ofTotal_apply _ _) (by rw [hw]; omega)]
      refine ⟨rfl, by simp [hw], by simp [hw, hc], ?_, ?_, ?_, ?_, ?_⟩
      · intro i h1 h2; simp only [hw] at h2; omega
      · intro j _; rfl
      · left; simp [hw, hcM]
      · simp [hw]
      · simp [hw]
  | succ d ih =>
    intro c w hd hc hw
    have hlt : c < MAX_STACK_SIZE := by omega
    by_cases hs : stops (nodeAt m fp c)
    · rw [read_frames_loop_stop _ _ _ _ hs]
      refine ⟨rfl, by simp [hw], by simp [hw, hc], ?_, ?_, ?_, ?_, ?_⟩
      · intro i h1 h2; simp only [hw] at h2; omega
      · intro j _; rfl
      · right; simpa [hw] using hs
      · simp [hw]
      · simp [hw]
    · rw [read_frames_loop_step _ _ _ (m (nodeAt m fp c).previous_frame) _ hs
        (ofTotal_apply _ _) (by rw [hw]; exact hlt), ← nodeAt_succ m fp c]
      have h := ih (c + 1)
        { w with iterations := w.iterations + 1,
                 loads := w.loads ++ [(nodeAt m fp c).previous_frame],
                 frames := w.frames.store (base + w.frames_count) (masked (nodeAt m fp c)),
                 frames_count := w.frames_count + 1,
                 stores := w.stores ++ [base + w.frames_count] }
        (by omega) (by omega) (by simp [hw])
      revert h
      generalize read_frames_loop (Memory.ofTotal m) base (nodeAt m fp (c + 1)) _ = r
      intro h
      obtain ⟨h1, h2, h3, h4, h5, h6, h7, h8⟩ := h
      refine ⟨by simpa using h1, by omega, h3, ?_, ?_, h6, ?_, ?_⟩
      · intro i hi1 hi2
        by_cases hic : i = c
        · subst hic
          refine ⟨hs, ?_⟩
          rw [h5 (base + i) (Or.inl (by omega))]
          simp [Buffer.store, hw]
        · exact h4 i (by omega) hi2
      · intro j hj
        rw [h5 j (by omega)]
        simp only [Buffer.store, hw]
        rw [if_neg (by omega)]
      · rw [h7]; simp only; omega
      · rw [h8]
        obtain ⟨k, hk⟩ : ∃ k, r.frames_count = c + 1 + k := ⟨r.frames_count - (c + 1), by omega⟩
        have e1 : r.frames_count - (c + 1) = k := by omega
        have e2 : r.frames_count - c = k + 1 := by omega
        simp only [hw, e1, e2, List.append_assoc, List.singleton_append, List.range'_succ]
        rfl

/-! ## The loop on an arbitrary memory -/

/-- Induction over the passes of the loop: a relation between the state at entry and the
state at exit that holds for the three ways of leaving the body and is carried back through
a recording pass holds for the loop. -/
theorem read_frames_loop_cases (mem : Memory) (base : Nat) (P : Walk → Walk → Prop)
    (stop : ∀ w, P w { w with iterations := w.iterations + 1 })
    (fault : ∀ (f : Frame) w, ¬ stops f → mem f.previous_frame = none →
      P w { w with iterations := w.iterations + 1, loads := w.loads ++ [f.previous_frame],
                   fault := true })
    (full : ∀ (f next : Frame) w, ¬ stops f → mem f.previous_frame = some next →
      ¬ w.frames_count < MAX_STACK_SIZE →
      P w { w with iterations := w.iterations + 1, loads := w.loads ++ [f.previous_frame] })
    (step : ∀ (f next : Frame) w r, ¬ stops f → mem f.previous_frame = some next →
      w.frames_count < MAX_STACK_SIZE →
      P { w with iterations := w.iterations + 1, loads := w.loads ++ [f.previous_frame],
                 frames := w.frames.store (base + w.frames_count) (masked f),
                 frames_count := w.frames_count + 1,
                 stores := w.stores ++ [base + w.frames_count] } r →
      P w r) :
    ∀ (d : Nat) (frame : Frame) (w : Walk), MAX_STACK_SIZE - w.frames_count = d →
      P w (read_frames_loop mem base frame w) := by
  intro d
  induction d with
  | zero =>
    intro frame w hd
    by_cases hs : stops frame
    · rw [read_frames_loop_stop _ _ _ _ hs]; exact stop w
    · cases hm : mem frame.previous_frame with
      | none => rw [read_frames_loop_fault _ _ _ _ hs hm]; exact fault frame w hs hm
      | some next =>
        rw [read_frames_loop_full _ _ _ next _ hs hm (by omega)]
        exact full frame next w hs hm (by omega)
  | succ d ih =>
    intro frame w hd
    by_cases hs : stops frame
    · rw [read_frames_loop_stop _ _ _ _ hs]; exact stop w
    · cases hm : mem frame.previous_frame with
      | none => rw [read_frames_loop_fault _ _ _ _ hs hm]; exact fault frame w hs hm
      | some next =>
        have hlt : w.frames_count < MAX_STACK_SIZE := by omega
        rw [read_frames_loop_step _ _ _ next _ hs hm hlt]
        exact step frame next w _ hs hm hlt (ih next _ (by simp only; omega))

/-- The loop never loads from the null address, and it faults exactly when it has loaded from
an address that is not mapped. -/
theorem read_frames_loop_loads (mem : Memory) (base : Nat) (frame : Frame) (w : Walk) :
    ((∀ a ∈ w.loads, a ≠ 0) → ∀ a ∈ (read_frames_loop mem base frame w).loads, a ≠ 0) ∧
    ((w.fault = true ↔ ∃ a ∈ w.loads, mem a = none) →
      ((read_frames_loop mem base frame w).fault = true ↔
        ∃ a ∈ (read_frames_loop mem base frame w).loads, mem a = none)) := by
  refine read_frames_loop_cases mem base
    (fun w r => ((∀ a ∈ w.loads, a ≠ 0) → ∀ a ∈ r.loads, a ≠ 0) ∧
      ((w.fault = true ↔ ∃ a ∈ w.loads, mem a = none) →
        (r.fault = true ↔ ∃ a ∈ r.loads, mem a = none)))
    ?_ ?_ ?_ ?_ _ frame w rfl
  · intro w; exact ⟨fun h => h, fun h => h⟩
  · intro f w hs hm
    refine ⟨?_, ?_⟩
    · intro h a ha
      simp only [List.mem_append, List.mem_singleton] at ha
      rcases ha with ha | ha
      · exact h a ha
      · subst ha; intro h0; exact hs (Or.inr h0)
    · intro _
      simp only [true_iff]
      exact ⟨f.previous_frame, by simp, hm⟩
  · intro f next w hs hm _
    refine ⟨?_, ?_⟩
    · intro h a ha
      simp only [List.mem_append, List.mem_singleton] at ha
      rcases ha with ha | ha
      · exact h a ha
      · subst ha; intro h0; exact hs (Or.inr h0)
    · intro h
      simp only [h, List.mem_append, List.mem_singleton]
      constructor
      · rintro ⟨a, ha, hn⟩; exact ⟨a, Or.inl ha, hn⟩
      · rintro ⟨a, ha | ha, hn⟩
        · exact ⟨a, ha, hn⟩
        · subst ha; rw [hm] at hn; cases hn
  · intro f next w r hs hm _ ih
    obtain ⟨ih1, ih2⟩ := ih
    refine ⟨?_, ?_⟩
    · intro h
      apply ih1
      intro a ha
      simp only [List.mem_append, List.mem_singleton] at ha
      rcases ha with ha | ha
      · exact h a ha
      · subst ha; intro h0; exact hs (Or.inr h0)
    · intro h
      apply ih2
      simp only [h, List.mem_append, List.mem_singleton]
      constructor
      · rintro ⟨a, ha, hn⟩; exact ⟨a, Or.inl ha, hn⟩
      · rintro ⟨a, ha | ha, hn⟩
        · exact ⟨a, ha, hn⟩
        · subst ha; rw [hm] at hn; cases hn

/-! ## `read_frames` as a whole -/

theorem read_frames_null (mem : Memory) (buf : Buffer) (base : Nat) :
    read_frames mem 0 buf base =
      { frames := buf, frames_count := 0, fault := false, iterations := 0, loads := [],
        stores := [] } := by
  simp [read_frames]

theorem read_frames_post (m : Nat → Frame) (fp : Nat) (buf : Buffer) (base : Nat)
    (hfp : fp ≠ 0) :
    LoopPost m fp base 0
      { frames := buf, frames_count := 0, fault := false, iterations := 0, loads := [fp],
        stores := [] }
      (read_frames (Memory.ofTotal m) fp buf base) := by
  have h := read_frames_loop_post m fp base MAX_STACK_SIZE 0
    { frames := buf, frames_count := 0, fault := false, iterations := 0, loads := [fp],
      stores := [] } rfl (Nat.zero_le _) rfl
  simpa [read_frames, hfp, ofTotal_apply, nodeAt, addrAt] using h

/-- On a fully mapped memory no load faults. -/
theorem read_frames_total_fault (m : Nat → Frame) (fp : Nat) (buf : Buffer) (base : Nat) :
    (read_frames (Memory.ofTotal m) fp buf base).fault = false := by
  by_cases hfp : fp = 0
  · subst hfp; rw [read_frames_null]
  · exact (read_frames_post m fp buf base hfp).fault_eq

/-- The counter returned on a fully mapped memory never exceeds `MAX_STACK_SIZE`. -/
theorem read_frames_total_count_le (m : Nat → Frame) (fp : Nat) (buf : Buffer) (base : Nat) :
    (read_frames (Memory.ofTotal m) fp buf base).frames_count ≤ MAX_STACK_SIZE := by
  by_cases hfp : fp = 0
  · subst hfp; rw [read_frames_null]; exact Nat.zero_le _
  · exact (read_frames_post m fp buf base hfp).count_le

/-- The stores of the walk go to consecutive words starting at the `frames` pointer. -/
theorem read_frames_total_stores (m : Nat → Frame) (fp : Nat) (buf : Buffer) (base : Nat) :
    (read_frames (Memory.ofTotal m) fp buf base).stores =
      List.range' base (read_frames (Memory.ofTotal m) fp buf base).frames_count := by
  by_cases hfp : fp = 0
  · subst hfp; rw [read_frames_null]; rfl
  · simpa using (read_frames_post m fp buf base hfp).stored

/-- When no node among the first `MAX_STACK_SIZE` ends the walk, the counter reaches
`MAX_STACK_SIZE`. -/
theorem read_frames_total_count_max (m : Nat → Frame) (fp : Nat) (buf : Buffer) (base : Nat)
    (hfp : fp ≠ 0) (h : ∀ i, i < MAX_STACK_SIZE → ¬ stops (nodeAt m fp i)) :
    (read_frames (Memory.ofTotal m) fp buf base).frames_count = MAX_STACK_SIZE := by
  have hp := read_frames_post m fp buf base hfp
  rcases hp.ended with he | he
  · exact he
  · have hle := hp.count_le
    by_contra hne
    exact h _ (by omega) he

/-- When node `k` is the first to end the walk, the counter is the smaller of `k` and
`MAX_STACK_SIZE`. -/
theorem read_frames_total_count_min (m : Nat → Frame) (fp : Nat) (buf : Buffer) (base : Nat)
    (hfp : fp ≠ 0) (k : Nat) (hk : ∀ i, i < k → ¬ stops (nodeAt m fp i))
    (hs : stops (nodeAt m fp k)) :
    (read_frames (Memory.ofTotal m) fp buf base).frames_count = min MAX_STACK_SIZE k := by
  have hp := read_frames_post m fp buf base hfp
  have hle := hp.count_le
  have h1 : (read_frames (Memory.ofTotal m) fp buf base).frames_count ≤ k := by
    by_contra hgt
    exact (hp.recorded k (Nat.zero_le _) (by omega)).1 hs
  rcases hp.ended with he | he
  · rw [he] at h1 ⊢; omega
  · have h2 : ¬ (read_frames (Memory.ofTotal m) fp buf base).frames_count < k :=
      fun hlt => hk _ hlt he
    omega

/-- The run of `read_thread_state` on a fully mapped memory, once suspension and the register
read have succeeded with non-zero `pc` and `lr`. -/
theorem read_thread_state_walk (m : Nat → Frame) (fp lr pc : Nat) (heap : Buffer)
    (hpc : pc ≠ 0) (hlr : lr ≠ 0) :
    read_thread_state ⟨KERN_SUCCESS, KERN_SUCCESS, ⟨fp, lr, pc⟩, Memory.ofTotal m, heap⟩ =
      { returned := some
          ⟨2 + (read_frames (Memory.ofTotal m) fp ((heap.store 0 pc).store 1 lr) 2).frames_count,
           (read_frames (Memory.ofTotal m) fp ((heap.store 0 pc).store 1 lr) 2).frames⟩,
        calls := [Call.thread_suspend, Call.thread_get_state, Call.thread_resume],
        allocated := MAX_STACK_SIZE,
        stores := [0, 1] ++
          (read_frames (Memory.ofTotal m) fp ((heap.store 0 pc).store 1 lr) 2).stores,
        loads := (read_frames (Memory.ofTotal m) fp ((heap.store 0 pc).store 1 lr) 2).loads,
        iterations :=
          (read_frames (Memory.ofTotal m) fp ((heap.store 0 pc).store 1 lr) 2).iterations } := by
  simp [read_thread_state, hpc, hlr, read_frames_total_fault]

/-! ## C1: suspend and resume are paired -/

/-- On a fully mapped memory (any codes returned by `thread_suspend` and `thread_get_state`,
any registers, any heap contents) the list of Mach calls holds exactly one `thread_resume`
when `thread_suspend` returned `KERN_SUCCESS`, and none when it returned anything else. -/
theorem read_thread_state_resume_paired (suspend_kr get_state_kr : Int)
    (thread_state : arm_thread_state64_t) (m : Nat → Frame) (heap : Buffer) :
    (read_thread_state
        ⟨suspend_kr, get_state_kr, thread_state, Memory.ofTotal m, heap⟩).calls.count
      Call.thread_resume = if suspend_kr = KERN_SUCCESS then 1 else 0 := by
  unfold read_thread_state
  simp only [read_frames_total_fault]
  by_cases h1 : suspend_kr = KERN_SUCCESS
  · by_cases h2 : get_state_kr = KERN_SUCCESS
    · by_cases h3 : thread_state.__pc = 0 ∨ thread_state.__lr = 0
      · simp [h1, h2, h3]
      · simp [h1, h2, h3]
    · simp [h1, h2]
  · simp [h1]

/-- The Mach calls of a run on any target, by the path taken. -/
theorem read_thread_state_calls (t : Target) :
    (t.suspend_kr ≠ KERN_SUCCESS →
      (read_thread_state t).calls = [Call.thread_suspend] ∧
      (read_thread_state t).returned.isSome = true) ∧
    (t.suspend_kr = KERN_SUCCESS →
      (t.get_state_kr ≠ KERN_SUCCESS ∨ t.thread_state.__pc = 0 ∨ t.thread_state.__lr = 0) →
      (read_thread_state t).calls =
        [Call.thread_suspend, Call.thread_get_state, Call.thread_resume] ∧
      (read_thread_state t).returned.isSome = true) ∧
    (t.suspend_kr = KERN_SUCCESS → t.get_state_kr = KERN_SUCCESS →
      t.thread_state.__pc ≠ 0 → t.thread_state.__lr ≠ 0 →
      (read_frames t.mem t.thread_state.__fp
        ((t.heap.store 0 t.thread_state.__pc).store 1 t.thread_state.__lr) 2).fault = false →
      (read_thread_state t).calls =
        [Call.thread_suspend, Call.thread_get_state, Call.thread_resume] ∧
      (read_thread_state t).returned.isSome = true) ∧
    (t.suspend_kr = KERN_SUCCESS → t.get_state_kr = KERN_SUCCESS →
      t.thread_state.__pc ≠ 0 → t.thread_state.__lr ≠ 0 →
      (read_frames t.mem t.thread_state.__fp
        ((t.heap.store 0 t.thread_state.__pc).store 1 t.thread_state.__lr) 2).fault = true →
      (read_thread_state t).calls = [Call.thread_suspend, Call.thread_get_state] ∧
      (read_thread_state t).returned.isSome = false) := by
  refine ⟨?_, ?_, ?_, ?_⟩
  · intro h1
    simp [read_thread_state, h1]
  · intro h1 h
    by_cases h2 : t.get_state_kr = KERN_SUCCESS
    · have h3 : t.thread_state.__pc = 0 ∨ t.thread_state.__lr = 0 := by
        rcases h with h | h
        · exact absurd h2 h
        · exact h
      simp [read_thread_state, h1, h2, h3]
    · simp [read_thread_state, h1, h2]
  · intro h1 h2 hpc hlr hf
    simp [read_thread_state, h1, h2, hpc, hlr, hf]
  · intro h1 h2 hpc hlr hf
    simp [read_thread_state, h1, h2, hpc, hlr, hf]

/-- C1, as stated, fails: on the thread with frame pointer 8 in a memory where nothing is
mapped, `thread_suspend` and `thread_get_state` succeed, the first load of the walk faults,
and the run ends with no `thread_resume` and no value returned. -/
theorem read_thread_state_fault_no_resume :
    faultingTarget.suspend_kr = KERN_SUCCESS ∧
    (read_thread_state faultingTarget).calls = [Call.thread_suspend, Call.thread_get_state] ∧
    (read_thread_state faultingTarget).calls.count Call.thread_resume = 0 ∧
    (read_thread_state faultingTarget).calls.count Call.thread_resume ≠
      (if faultingTarget.suspend_kr = KERN_SUCCESS then 1 else 0) ∧
    (read_thread_state faultingTarget).returned.isSome = false := by
  have hf : (read_frames faultingTarget.mem faultingTarget.thread_state.__fp
      ((faultingTarget.heap.store 0 faultingTarget.thread_state.__pc).store 1
        faultingTarget.thread_state.__lr) 2).fault = true := by
    simp [read_frames, faultingTarget, unmapped]
  obtain ⟨hc, hr⟩ := (read_thread_state_calls faultingTarget).2.2.2 rfl rfl
    (by decide) (by decide) hf
  rw [hc]
  exact ⟨rfl, rfl, by decide, by decide, hr⟩

/-- C1 (amended). On every run of `read_thread_state` (any codes returned by `thread_suspend`
and `thread_get_state`, any registers, any memory, mapped or not, any heap contents) the list
of Mach calls holds exactly one `thread_resume` when `thread_suspend` returned `KERN_SUCCESS`
and the run returns, and none otherwise: none when `thread_suspend` failed, and none when a
load of the walk faults. The run fails to return exactly when both calls succeeded, `pc` and
`lr` are non-zero and a load of the walk faults; on a fully mapped memory it always returns. -/
theorem read_thread_state_resume_paired_on_return (t : Target) :
    (read_thread_state t).calls.count Call.thread_resume =
      (if t.suspend_kr = KERN_SUCCESS ∧ (read_thread_state t).returned.isSome = true
        then 1 else 0) ∧
    ((read_thread_state t).returned.isSome = false ↔
      (t.suspend_kr = KERN_SUCCESS ∧ t.get_state_kr = KERN_SUCCESS ∧
        t.thread_state.__pc ≠ 0 ∧ t.thread_state.__lr ≠ 0 ∧
        (read_frames t.mem t.thread_state.__fp
          ((t.heap.store 0 t.thread_state.__pc).store 1 t.thread_state.__lr) 2).fault = true)) ∧
    (∀ m : Nat → Frame, t.mem = Memory.ofTotal m →
      (read_thread_state t).returned.isSome = true) := by
  obtain ⟨c1, c2, c3, c4⟩ := read_thread_state_calls t
  by_cases h1 : t.suspend_kr = KERN_SUCCESS
  · by_cases h2 : t.get_state_kr = KERN_SUCCESS
    · by_cases hpc : t.thread_state.__pc = 0
      · obtain ⟨hc, hr⟩ := c2 h1 (Or.inr (Or.inl hpc))
        refine ⟨by rw [hc]; simp [h1, hr], ?_, fun _ _ => hr⟩
        rw [hr]
        constructor
        · intro h; cases h
        · rintro ⟨_, _, h, _⟩; exact absurd hpc h
      · by_cases hlr : t.thread_state.__lr = 0
        · obtain ⟨hc, hr⟩ := c2 h1 (Or.inr (Or.inr hlr))
          refine ⟨by rw [hc]; simp [h1, hr], ?_, fun _ _ => hr⟩
          rw [hr]
          constructor
          · intro h; cases h
          · rintro ⟨_, _, _, h, _⟩; exact absurd hlr h
        · cases hf : (read_frames t.mem t.thread_state.__fp
              ((t.heap.store 0 t.thread_state.__pc).store 1 t.thread_state.__lr) 2).fault with
          | false =>
            obtain ⟨hc, hr⟩ := c3 h1 h2 hpc hlr hf
            refine ⟨by rw [hc]; simp [h1, hr], ?_, fun _ _ => hr⟩
            rw [hr]
            constructor
            · intro h; cases h
            · rintro ⟨_, _, _, _, h⟩; cases h
          | true =>
            obtain ⟨hc, hr⟩ := c4 h1 h2 hpc hlr hf
            refine ⟨by rw [hc]; simp [hr], ?_, ?_⟩
            · rw [hr]
              exact ⟨fun _ => ⟨h1, h2, hpc, hlr, rfl⟩, fun _ => rfl⟩
            · intro m hm
              rw [hm, read_frames_total_fault] at hf
              cases hf
    · obtain ⟨hc, hr⟩ := c2 h1 (Or.inl h2)
      refine ⟨by rw [hc]; simp [h1, hr], ?_, fun _ _ => hr⟩
      rw [hr]
      constructor
      · intro h; cases h
      · rintro ⟨_, h, _⟩; exact absurd h h2
  · obtain ⟨hc, hr⟩ := c1 h1
    refine ⟨by rw [hc]; simp [h1], ?_, fun _ _ => hr⟩
    rw [hr]
    constructor
    · intro h; cases h
    · rintro ⟨h, _⟩; exact absurd h h1

/-! ## C2: the stores and the allocated block -/

theorem selfLinked_never_stops (i : Nat) : ¬ stops (nodeAt selfLinked 16 i) := by
  show ¬ stops (⟨16, 1⟩ : Frame)
  decide

/-- C2. On a thread whose frame pointer is 16 and whose frame at 16 links to itself (return
address 1), with `pc = lr = 1`, `read_thread_state` asks `malloc` for 1024 words, stores to
the words of index 1024 and 1025 of the block, and returns size 1026. -/
theorem read_thread_state_stores_past_block :
    (read_thread_state
      ⟨KERN_SUCCESS, KERN_SUCCESS, ⟨16, 1, 1⟩, Memory.ofTotal selfLinked, fun _ => 0⟩).allocated
        = 1024 ∧
    1024 ∈ (read_thread_state
      ⟨KERN_SUCCESS, KERN_SUCCESS, ⟨16, 1, 1⟩, Memory.ofTotal selfLinked, fun _ => 0⟩).stores ∧
    1025 ∈ (read_thread_state
      ⟨KERN_SUCCESS, KERN_SUCCESS, ⟨16, 1, 1⟩, Memory.ofTotal selfLinked, fun _ => 0⟩).stores ∧
    (read_thread_state
      ⟨KERN_SUCCESS, KERN_SUCCESS, ⟨16, 1, 1⟩, Memory.ofTotal selfLinked, fun _ => 0⟩).returned.map
        (fun r => r.size) = some 1026 := by
  rw [read_thread_state_walk selfLinked 16 1 1 _ (by decide) (by decide)]
  have hc := read_frames_total_count_max selfLinked 16
    ((Buffer.store (fun _ => 0) 0 1).store 1 1) 2 (by decide)
    (fun i _ => selfLinked_never_stops i)
  have hs := read_frames_total_stores selfLinked 16 ((Buffer.store (fun _ => 0) 0 1).store 1 1) 2
  rw [hc] at hs
  simp only [hs, hc, Option.map_some']
  refine ⟨rfl, ?_, ?_, rfl⟩
  · simp only [List.cons_append, List.nil_append, List.mem_cons, List.mem_range', MAX_STACK_SIZE]
    exact Or.inr (Or.inr ⟨1022, by decide, by decide⟩)
  · simp only [List.cons_append, List.nil_append, List.mem_cons, List.mem_range', MAX_STACK_SIZE]
    exact Or.inr (Or.inr ⟨1023, by decide, by decide⟩)

/-! ## C3: a well-formed chain of depth `n` -/

/-- On a well-formed chain of depth `n` the walk records the first `n - 1` nodes and leaves
at the root. -/
theorem read_frames_chain_count (m : Nat → Frame) (fp n : Nat) (buf : Buffer) (base : Nat)
    (hc : WellFormedChain m fp n) (hn : n ≤ MAX_STACK_SIZE) :
    (read_frames (Memory.ofTotal m) fp buf base).frames_count = n - 1 := by
  obtain ⟨hpos, hfp, hra, hlink, hroot⟩ := hc
  rw [read_frames_total_count_min m fp buf base hfp (n - 1) ?_ (Or.inr hroot)]
  · omega
  · intro i hi hs
    rcases hs with hs | hs
    · exact hra i (by omega) hs
    · exact hlink i (by omega) hs

/-- The run of `read_thread_state` on a well-formed chain of depth `n`. -/
theorem read_thread_state_on_chain (m : Nat → Frame) (fp n lr pc : Nat) (heap : Buffer)
    (hc : WellFormedChain m fp n) (hn : n ≤ MAX_STACK_SIZE) (hpc : pc ≠ 0) (hlr : lr ≠ 0) :
    ∃ res,
      (read_thread_state
        ⟨KERN_SUCCESS, KERN_SUCCESS, ⟨fp, lr, pc⟩, Memory.ofTotal m, heap⟩).returned = some res ∧
      res.size = 1 + n ∧
      (∀ i, i + 1 < n → res.frames (2 + i) = masked (nodeAt m fp i)) ∧
      res.frames (1 + n) = heap (1 + n) := by
  rw [read_thread_state_walk m fp lr pc heap hpc hlr]
  have hcount := read_frames_chain_count m fp n ((heap.store 0 pc).store 1 lr) 2 hc hn
  have hp := read_frames_post m fp ((heap.store 0 pc).store 1 lr) 2 hc.2.1
  have hpos := hc.1
  refine ⟨_, rfl, ?_, ?_, ?_⟩
  · simp only [hcount]; omega
  · intro i hi
    exact (hp.recorded i (Nat.zero_le _) (by rw [hcount]; omega)).2
  · simp only
    rw [hp.untouched (1 + n) (Or.inr (by rw [hcount]; omega))]
    simp only [Buffer.store]
    rw [if_neg (by omega), if_neg (by omega)]

theorem fiveFrames_wellFormed : WellFormedChain fiveFrames 0x50 5 := by
  decide

/-- C3, as stated, fails: the chain of five well-formed frames at 0x50 .. 0x10 (root at 0x10,
null link) with `pc = 9`, `lr = 7` makes `read_thread_state` return size 6, not 7: the root
frame is where the walk leaves and its return address is not recorded. -/
theorem read_thread_state_depth_five_size_six :
    WellFormedChain fiveFrames 0x50 5 ∧ 5 ≤ MAX_STACK_SIZE ∧
    (read_thread_state
      ⟨KERN_SUCCESS, KERN_SUCCESS, ⟨0x50, 7, 9⟩, Memory.ofTotal fiveFrames,
        fun _ => 0⟩).returned.map (fun r => r.size) = some 6 ∧
    (read_thread_state
      ⟨KERN_SUCCESS, KERN_SUCCESS, ⟨0x50, 7, 9⟩, Memory.ofTotal fiveFrames,
        fun _ => 0⟩).returned.map (fun r => r.size) ≠ some (2 + 5) := by
  have hsz : (read_thread_state
      ⟨KERN_SUCCESS, KERN_SUCCESS, ⟨0x50, 7, 9⟩, Memory.ofTotal fiveFrames,
        fun _ => 0⟩).returned.map (fun r => r.size) = some 6 := by
    rw [read_thread_state_walk fiveFrames 0x50 7 9 _ (by decide) (by decide)]
    simp only [Option.map_some']
    rw [read_frames_chain_count fiveFrames 0x50 5 _ 2 fiveFrames_wellFormed (by decide)]
  refine ⟨fiveFrames_wellFormed, by decide, hsz, ?_⟩
  rw [hsz]
  decide

/-- C3 (amended). For every well-formed chain of depth `n` at most `MAX_STACK_SIZE`, with
suspension and the register read succeeding and `pc`, `lr` non-zero, `read_thread_state`
returns size `1 + n`; entries `2 .. n` are the masked return addresses of the first `n - 1`
nodes in chain order, and the word after them still holds what `malloc` handed out: the
return address of the root is not recorded. -/
theorem read_thread_state_chain_depth (m : Nat → Frame) (fp n lr pc : Nat) (heap : Buffer)
    (hc : WellFormedChain m fp n) (hn : n ≤ MAX_STACK_SIZE) (hpc : pc ≠ 0) (hlr : lr ≠ 0) :
    ∃ res,
      (read_thread_state
        ⟨KERN_SUCCESS, KERN_SUCCESS, ⟨fp, lr, pc⟩, Memory.ofTotal m, heap⟩).returned = some res ∧
      res.size = 1 + n ∧
      (∀ i, i + 1 < n → res.frames (2 + i) = masked (nodeAt m fp i)) ∧
      res.frames (1 + n) = heap (1 + n) :=
  read_thread_state_on_chain m fp n lr pc heap hc hn hpc hlr

/-- Witness of C3 (amended): the chain of five frames gives size 6. -/
theorem read_thread_state_chain_depth_witness :
    WellFormedChain fiveFrames 0x50 5 ∧ 5 ≤ MAX_STACK_SIZE ∧ (9 : Nat) ≠ 0 ∧ (7 : Nat) ≠ 0 ∧
    ∃ res,
      (read_thread_state
        ⟨KERN_SUCCESS, KERN_SUCCESS, ⟨0x50, 7, 9⟩, Memory.ofTotal fiveFrames,
          fun _ => 0⟩).returned = some res ∧
      res.size = 1 + 5 ∧
      (∀ i, i + 1 < 5 → res.frames (2 + i) = masked (nodeAt fiveFrames 0x50 i)) ∧
      res.frames (1 + 5) = (fun _ => 0) (1 + 5) :=
  ⟨fiveFrames_wellFormed, by decide, by decide, by decide,
    read_thread_state_chain_depth fiveFrames 0x50 5 7 9 (fun _ => 0) fiveFrames_wellFormed
      (by decide) (by decide) (by decide)⟩

/-! ## C4: loads from addresses that are not mapped -/

/-- The loads of `read_frames`: never from the null address, and a fault exactly when one of
them hits an address that is not mapped. -/
theorem read_frames_loads (mem : Memory) (fp : Nat) (buf : Buffer) (base : Nat) :
    (∀ a ∈ (read_frames mem fp buf base).loads, a ≠ 0) ∧
    ((read_frames mem fp buf base).fault = true ↔
      ∃ a ∈ (read_frames mem fp buf base).loads, mem a = none) := by
  by_cases hfp : fp = 0
  · subst hfp; rw [read_frames_null]; simp
  · cases hm : mem fp with
    | none =>
      simp [read_frames, hfp, hm]
    | some f =>
      have h := read_frames_loop_loads mem base f
        { frames := buf, frames_count := 0, fault := false, iterations := 0, loads := [fp],
          stores := [] }
      have e : read_frames mem fp buf base = read_frames_loop mem base f
          { frames := buf, frames_count := 0, fault := false, iterations := 0, loads := [fp],
            stores := [] } := by
        simp [read_frames, hfp, hm]
      rw [e]
      refine ⟨h.1 ?_, h.2 ?_⟩
      · intro a ha
        simp only [List.mem_singleton] at ha
        subst ha; exact hfp
      · simp [hm]

/-- C4, as stated, fails: with nothing mapped and starting value 8 the first load of
`read_frames` is from address 8 and faults; with only address 8 mapped and the frame there
linked to address 24, the load that follows the link is from address 24 and faults. -/
theorem read_frames_faults_on_unmapped :
    unmapped 8 = none ∧
    (read_frames unmapped 8 (fun _ => 0) 0).loads = [8] ∧
    (read_frames unmapped 8 (fun _ => 0) 0).fault = true ∧
    danglingLink 24 = none ∧
    (read_frames danglingLink 8 (fun _ => 0) 0).loads = [8, 24] ∧
    (read_frames danglingLink 8 (fun _ => 0) 0).fault = true := by
  have e : read_frames danglingLink 8 (fun _ => 0) 0 =
      { frames := fun _ => 0, frames_count := 0, fault := true, iterations := 1,
        loads := [8, 24], stores := [] } := by
    have h8 : danglingLink 8 = some ⟨24, 1⟩ := rfl
    simp only [read_frames, h8]
    rw [if_neg (by decide), read_frames_loop_fault _ _ _ _ (by decide) rfl]
    rfl
  rw [e]
  refine ⟨rfl, ?_, ?_, rfl, rfl, rfl⟩
  · simp [read_frames, unmapped]
  · simp [read_frames, unmapped]

/-- C4 (amended). For every memory (addresses may be unmapped) and every starting value,
`read_frames` never loads from the null address, and it makes no check of the addresses it
loads from: the walk faults exactly when the starting value or a link it follows is not
mapped. In particular it does not fault when every non-null address is mapped, and it faults
on its first load when the starting value is non-null and not mapped. -/
theorem read_frames_fault_iff_unmapped_load (mem : Memory) (fp : Nat) (buf : Buffer)
    (base : Nat) :
    (∀ a ∈ (read_frames mem fp buf base).loads, a ≠ 0) ∧
    ((read_frames mem fp buf base).fault = true ↔
      ∃ a ∈ (read_frames mem fp buf base).loads, mem a = none) ∧
    ((∀ a, a ≠ 0 → mem a ≠ none) → (read_frames mem fp buf base).fault = false) ∧
    (fp ≠ 0 → mem fp = none →
      (read_frames mem fp buf base).fault = true ∧
      (read_frames mem fp buf base).loads = [fp] ∧
      (read_frames mem fp buf base).frames_count = 0) := by
  obtain ⟨h1, h2⟩ := read_frames_loads mem fp buf base
  refine ⟨h1, h2, ?_, ?_⟩
  · intro hall
    cases hf : (read_frames mem fp buf base).fault with
    | false => rfl
    | true =>
      obtain ⟨a, ha, hn⟩ := h2.1 hf
      exact absurd hn (hall a (h1 a ha))
  · intro hfp hm
    simp [read_frames, hfp, hm]

/-! ## C5: when the size is zero -/

/-- C5. On a fully mapped memory `read_thread_state` returns, and the size returned is 0 if
and only if `thread_suspend` failed, or `thread_get_state` failed, or `pc` is zero, or `lr`
is zero; in every other case the size is at least 2. -/
theorem read_thread_state_size_zero_iff (suspend_kr get_state_kr : Int)
    (thread_state : arm_thread_state64_t) (m : Nat → Frame) (heap : Buffer) :
    ∃ res,
      (read_thread_state
        ⟨suspend_kr, get_state_kr, thread_state, Memory.ofTotal m, heap⟩).returned = some res ∧
      (res.size = 0 ↔
        (suspend_kr ≠ KERN_SUCCESS ∨ get_state_kr ≠ KERN_SUCCESS ∨
          thread_state.__pc = 0 ∨ thread_state.__lr = 0)) ∧
      (¬ (suspend_kr ≠ KERN_SUCCESS ∨ get_state_kr ≠ KERN_SUCCESS ∨
          thread_state.__pc = 0 ∨ thread_state.__lr = 0) → 2 ≤ res.size) := by
  unfold read_thread_state
  simp only [read_frames_total_fault]
  by_cases h1 : suspend_kr = KERN_SUCCESS
  · by_cases h2 : get_state_kr = KERN_SUCCESS
    · by_cases h3 : thread_state.__pc = 0 ∨ thread_state.__lr = 0
      · refine ⟨⟨0, heap⟩, by simp [h1, h2, h3], ?_, ?_⟩
        · simp only [true_iff]; exact Or.inr (Or.inr h3)
        · intro hn; exact absurd (Or.inr (Or.inr h3)) hn
      · refine ⟨_, by simp only [h1, h2, h3, ne_eq, not_true_eq_false, if_false]; rfl, ?_, ?_⟩
        · simp only [h1, h2, ne_eq, not_true_eq_false, false_or]
          constructor
          · intro h; omega
          · intro h; exact absurd h h3
        · intro _; simp only; omega
    · refine ⟨⟨0, heap⟩, by simp [h1, h2], ?_, ?_⟩
      · simp only [true_iff]; exact Or.inr (Or.inl h2)
      · intro hn; exact absurd (Or.inr (Or.inl h2)) hn
  · refine ⟨⟨0, heap⟩, by simp [h1], ?_, ?_⟩
    · simp only [true_iff]; exact Or.inl h1
    · intro hn; exact absurd (Or.inl h1) hn

/-! ## C6: the two leading entries -/

/-- On any memory the loop leaves the words below the `frames` pointer as they were and
stores only at or above it. -/
theorem read_frames_loop_below (mem : Memory) (base : Nat) (frame : Frame) (w : Walk) :
    (∀ j, j < base → (read_frames_loop mem base frame w).frames j = w.frames j) ∧
    (∀ i ∈ (read_frames_loop mem base frame w).stores, i ∈ w.stores ∨ base ≤ i) := by
  refine read_frames_loop_cases mem base
    (fun w r => (∀ j, j < base → r.frames j = w.frames j) ∧
      (∀ i ∈ r.stores, i ∈ w.stores ∨ base ≤ i))
    ?_ ?_ ?_ ?_ _ frame w rfl
  · intro w; exact ⟨fun _ _ => rfl, fun i hi => Or.inl hi⟩
  · intro f w _ _; exact ⟨fun _ _ => rfl, fun i hi => Or.inl hi⟩
  · intro f next w _ _ _; exact ⟨fun _ _ => rfl, fun i hi => Or.inl hi⟩
  · intro f next w r _ _ _ ih
    obtain ⟨ih1, ih2⟩ := ih
    refine ⟨?_, ?_⟩
    · intro j hj
      rw [ih1 j hj]
      simp only [Buffer.store]
      rw [if_neg (by omega)]
    · intro i hi
      rcases ih2 i hi with h | h
      · simp only [List.mem_append, List.mem_singleton] at h
        rcases h with h | h
        · exact Or.inl h
        · exact Or.inr (by omega)
      · exact Or.inr h

/-- On any memory `read_frames` leaves the words below the `frames` pointer as they were and
stores only at or above it. -/
theorem read_frames_below (mem : Memory) (fp : Nat) (buf : Buffer) (base : Nat) :
    (∀ j, j < base → (read_frames mem fp buf base).frames j = buf j) ∧
    (∀ i ∈ (read_frames mem fp buf base).stores, base ≤ i) := by
  by_cases hfp : fp = 0
  · subst hfp; rw [read_frames_null]; simp
  · cases hm : mem fp with
    | none => simp [read_frames, hfp, hm]
    | some f =>
      have h := read_frames_loop_below mem base f
        { frames := buf, frames_count := 0, fault := false, iterations := 0, loads := [fp],
          stores := [] }
      have e : read_frames mem fp buf base = read_frames_loop mem base f
          { frames := buf, frames_count := 0, fault := false, iterations := 0, loads := [fp],
            stores := [] } := by
        simp [read_frames, hfp, hm]
      rw [e]
      refine ⟨h.1, ?_⟩
      intro i hi
      rcases h.2 i hi with h' | h'
      · simp at h'
      · exact h'

/-- C6. Whenever `read_thread_state` returns a non-zero size (any memory, mapped or not), entry
0 of the returned buffer is the `pc` and entry 1 the `lr` of the thread state, and every store
made by the frame walk goes to an index of at least 2. -/
theorem read_thread_state_leading_entries (t : Target) (res : thread_state_result)
    (hret : (read_thread_state t).returned = some res) (hsize : res.size ≠ 0) :
    res.frames 0 = t.thread_state.__pc ∧ res.frames 1 = t.thread_state.__lr ∧
    ∀ i ∈ (read_frames t.mem t.thread_state.__fp
        ((t.heap.store 0 t.thread_state.__pc).store 1 t.thread_state.__lr) 2).stores, 2 ≤ i := by
  have hb := read_frames_below t.mem t.thread_state.__fp
    ((t.heap.store 0 t.thread_state.__pc).store 1 t.thread_state.__lr) 2
  refine ⟨?_, ?_, hb.2⟩
  · unfold read_thread_state at hret
    by_cases h1 : t.suspend_kr = KERN_SUCCESS
    · by_cases h2 : t.get_state_kr = KERN_SUCCESS
      · by_cases h3 : t.thread_state.__pc = 0 ∨ t.thread_state.__lr = 0
        · simp [h1, h2, h3] at hret
          rw [← hret] at hsize; exact absurd rfl hsize
        · simp only [h1, h2, h3, ne_eq, not_true_eq_false, if_false] at hret
          split at hret
          · cases hret
          · simp only [Option.some.injEq] at hret
            rw [← hret]
            simp only
            rw [hb.1 0 (by decide)]
            simp [Buffer.store]
      · simp [h1, h2] at hret
        rw [← hret] at hsize; exact absurd rfl hsize
    · simp [h1] at hret
      rw [← hret] at hsize; exact absurd rfl hsize
  · unfold read_thread_state at hret
    by_cases h1 : t.suspend_kr = KERN_SUCCESS
    · by_cases h2 : t.get_state_kr = KERN_SUCCESS
      · by_cases h3 : t.thread_state.__pc = 0 ∨ t.thread_state.__lr = 0
        · simp [h1, h2, h3] at hret
          rw [← hret] at hsize; exact absurd rfl hsize
        · simp only [h1, h2, h3, ne_eq, not_true_eq_false, if_false] at hret
          split at hret
          · cases hret
          · simp only [Option.some.injEq] at hret
            rw [← hret]
            simp only
            rw [hb.1 1 (by decide)]
            simp [Buffer.store]
      · simp [h1, h2] at hret
        rw [← hret] at hsize; exact absurd rfl hsize
    · simp [h1] at hret
      rw [← hret] at hsize; exact absurd rfl hsize

/-- Witness of C6: on the thread with the chain of five frames, `pc = 9` and `lr = 7`. -/
theorem read_thread_state_leading_entries_witness :
    ∃ res, (read_thread_state fiveTarget).returned = some res ∧ res.size ≠ 0 ∧
      (res.frames 0 = fiveTarget.thread_state.__pc ∧
       res.frames 1 = fiveTarget.thread_state.__lr ∧
       ∀ i ∈ (read_frames fiveTarget.mem fiveTarget.thread_state.__fp
          ((fiveTarget.heap.store 0 fiveTarget.thread_state.__pc).store 1
            fiveTarget.thread_state.__lr) 2).stores, 2 ≤ i) := by
  have h := read_thread_state_walk fiveFrames 0x50 7 9 (fun _ => 0) (by decide) (by decide)
  have hret : (read_thread_state fiveTarget).returned = some
      ⟨2 + (read_frames (Memory.ofTotal fiveFrames) 0x50
              ((Buffer.store (fun _ => 0) 0 9).store 1 7) 2).frames_count,
        (read_frames (Memory.ofTotal fiveFrames) 0x50
              ((Buffer.store (fun _ => 0) 0 9).store 1 7) 2).frames⟩ := by
    unfold fiveTarget; rw [h]
  exact ⟨_, hret, by simp, read_thread_state_leading_entries fiveTarget _ hret (by simp)⟩

/-! ## C7: the walked entries follow the chain -/

/-- C7. For every fully mapped memory, starting value and output position, and every `i`
below the count returned by `read_frames`, word `i` of the output holds the masked return
address of the node reached by following `i` links from the starting value; the stores were
made to the words `0, 1, .., count - 1` in that order, one per node. -/
theorem read_frames_entries_follow_chain (m : Nat → Frame) (fp : Nat) (buf : Buffer)
    (base i : Nat)
    (hi : i < (read_frames (Memory.ofTotal m) fp buf base).frames_count) :
    (read_frames (Memory.ofTotal m) fp buf base).frames (base + i) = masked (nodeAt m fp i) ∧
    (read_frames (Memory.ofTotal m) fp buf base).stores =
      List.range' base (read_frames (Memory.ofTotal m) fp buf base).frames_count := by
  refine ⟨?_, read_frames_total_stores m fp buf base⟩
  by_cases hfp : fp = 0
  · subst hfp
    rw [read_frames_null] at hi
    exact absurd hi (Nat.not_lt_zero _)
  · exact ((read_frames_post m fp buf base hfp).recorded i (Nat.zero_le _) hi).2

/-- Witness of C7: entry 3 of the walk over the chain of five frames. -/
theorem read_frames_entries_follow_chain_witness :
    3 < (read_frames (Memory.ofTotal fiveFrames) 0x50 (fun _ => 0) 2).frames_count ∧
    (read_frames (Memory.ofTotal fiveFrames) 0x50 (fun _ => 0) 2).frames (2 + 3) =
      masked (nodeAt fiveFrames 0x50 3) ∧
    (read_frames (Memory.ofTotal fiveFrames) 0x50 (fun _ => 0) 2).stores =
      List.range' 2 (read_frames (Memory.ofTotal fiveFrames) 0x50 (fun _ => 0) 2).frames_count :=
  have h : 3 < (read_frames (Memory.ofTotal fiveFrames) 0x50 (fun _ => 0) 2).frames_count := by
    rw [read_frames_chain_count fiveFrames 0x50 5 _ 2 fiveFrames_wellFormed (by decide)]
    decide
  ⟨h, read_frames_entries_follow_chain fiveFrames 0x50 (fun _ => 0) 2 3 h⟩

/-! ## C8: number of passes through the loop body -/

/-- On any memory, the counter stays within `MAX_STACK_SIZE`, every pass but the last makes
exactly one store, and the last pass makes none. -/
theorem read_frames_loop_passes (mem : Memory) (base : Nat) (frame : Frame) (w : Walk) :
    w.frames_count ≤ MAX_STACK_SIZE →
      (read_frames_loop mem base frame w).frames_count ≤ MAX_STACK_SIZE ∧
      w.frames_count ≤ (read_frames_loop mem base frame w).frames_count ∧
      (read_frames_loop mem base frame w).iterations =
        w.iterations + ((read_frames_loop mem base frame w).frames_count - w.frames_count) + 1 ∧
      (read_frames_loop mem base frame w).stores.length =
        w.stores.length + ((read_frames_loop mem base frame w).frames_count - w.frames_count) := by
  refine read_frames_loop_cases mem base
    (fun w r => w.frames_count ≤ MAX_STACK_SIZE →
      r.frames_count ≤ MAX_STACK_SIZE ∧ w.frames_count ≤ r.frames_count ∧
      r.iterations = w.iterations + (r.frames_count - w.frames_count) + 1 ∧
      r.stores.length = w.stores.length + (r.frames_count - w.frames_count))
    ?_ ?_ ?_ ?_ _ frame w rfl
  · intro w h; exact ⟨h, Nat.le_refl _, by simp, by simp⟩
  · intro f w _ _ h; exact ⟨h, Nat.le_refl _, by simp, by simp⟩
  · intro f next w _ _ _ h; exact ⟨h, Nat.le_refl _, by simp, by simp⟩
  · intro f next w r _ _ hlt ih _
    obtain ⟨h1, h2, h3, h4⟩ := ih (by simp only; omega)
    simp only [List.length_append, List.length_singleton] at h2 h3 h4
    exact ⟨h1, by omega, by omega, by omega⟩

/-- The passes and stores of `read_frames` on any memory. -/
theorem read_frames_passes (mem : Memory) (fp : Nat) (buf : Buffer) (base : Nat) :
    (read_frames mem fp buf base).iterations ≤ MAX_STACK_SIZE + 1 ∧
    (read_frames mem fp buf base).frames_count ≤ MAX_STACK_SIZE ∧
    (read_frames mem fp buf base).stores.length = (read_frames mem fp buf base).frames_count := by
  by_cases hfp : fp = 0
  · subst hfp; rw [read_frames_null]; simp
  · cases hm : mem fp with
    | none => simp [read_frames, hfp, hm]
    | some f =>
      have h := read_frames_loop_passes mem base f
        { frames := buf, frames_count := 0, fault := false, iterations := 0, loads := [fp],
          stores := [] } (Nat.zero_le _)
      have e : read_frames mem fp buf base = read_frames_loop mem base f
          { frames := buf, frames_count := 0, fault := false, iterations := 0, loads := [fp],
            stores := [] } := by
        simp [read_frames, hfp, hm]
      rw [e]
      obtain ⟨h1, _, h3, h4⟩ := h
      simp only [List.length_nil] at h3 h4
      exact ⟨by omega, h1, by omega⟩

/-- C8, as stated, fails: on the frame at 16 that links to itself the loop body of
`read_frames` is entered 1025 times, one more than `MAX_STACK_SIZE`. -/
theorem read_frames_self_linked_passes :
    (read_frames (Memory.ofTotal selfLinked) 16 (fun _ => 0) 0).iterations = 1025 ∧
    ¬ (read_frames (Memory.ofTotal selfLinked) 16 (fun _ => 0) 0).iterations ≤ MAX_STACK_SIZE := by
  have hp := read_frames_post selfLinked 16 (fun _ => 0) 0 (by decide)
  have hc := read_frames_total_count_max selfLinked 16 (fun _ => 0) 0 (by decide)
    (fun i _ => selfLinked_never_stops i)
  have h := hp.passes
  rw [hc] at h
  simp only [MAX_STACK_SIZE] at h ⊢
  rw [h]
  exact ⟨by decide, by decide⟩

/-- C8 (amended). For every memory (mapped or not) and every starting value, cyclic chains
included, `read_frames` is a total function (its loop is defined by recursion on
`MAX_STACK_SIZE - frames_count`), its loop body is entered at most `MAX_STACK_SIZE + 1 = 1025`
times, and at most `MAX_STACK_SIZE = 1024` of these passes store an entry. -/
theorem read_frames_passes_bounded (mem : Memory) (fp : Nat) (buf : Buffer) (base : Nat) :
    (read_frames mem fp buf base).iterations ≤ MAX_STACK_SIZE + 1 ∧
    MAX_STACK_SIZE + 1 = 1025 ∧
    (read_frames mem fp buf base).stores.length ≤ MAX_STACK_SIZE := by
  obtain ⟨h1, h2, h3⟩ := read_frames_passes mem fp buf base
  exact ⟨h1, rfl, by omega⟩

/-! ## C9: a chain with a cycle -/

/-- In a chain with a cycle every address reached is the address of one of the nodes
`0 .. N`. -/
theorem cyclic_addr_repeats (m : Nat → Frame) (fp N j : Nat) (hc : CyclicChain m fp N j) :
    ∀ i, ∃ k, k ≤ N ∧ addrAt m fp i = addrAt m fp k := by
  obtain ⟨_, hj, _, hback, _⟩ := hc
  intro i
  induction i with
  | zero => exact ⟨0, Nat.zero_le _, rfl⟩
  | succ i ih =>
    obtain ⟨k, hk, he⟩ := ih
    have hstep : addrAt m fp (i + 1) = addrAt m fp (k + 1) := by
      show (m (addrAt m fp i)).previous_frame = (m (addrAt m fp k)).previous_frame
      rw [he]
    by_cases hkN : k = N
    · subst hkN
      exact ⟨j, hj, by rw [hstep]; exact hback⟩
    · exact ⟨k + 1, by omega, hstep⟩

/-- In a chain with a cycle no node ends the walk. -/
theorem cyclic_never_stops (m : Nat → Frame) (fp N j : Nat) (hc : CyclicChain m fp N j)
    (i : Nat) : ¬ stops (nodeAt m fp i) := by
  obtain ⟨k, hk, he⟩ := cyclic_addr_repeats m fp N j hc i
  obtain ⟨hfp, hj, hlink, hback, hra⟩ := hc
  have hnode : nodeAt m fp i = nodeAt m fp k := by
    show m (addrAt m fp i) = m (addrAt m fp k)
    rw [he]
  rw [hnode]
  rintro (hs | hs)
  · exact hra k (by omega) hs
  · by_cases hkN : k = N
    · subst hkN
      rw [hback] at hs
      cases j with
      | zero => exact hfp hs
      | succ j => exact hlink j (by omega) hs
    · exact hlink k (by omega) hs

/-- The run of `read_thread_state` on a chain with a cycle. -/
theorem read_thread_state_on_cycle (m : Nat → Frame) (fp N j lr pc : Nat) (heap : Buffer)
    (hc : CyclicChain m fp N j) (hpc : pc ≠ 0) (hlr : lr ≠ 0) :
    (read_thread_state
      ⟨KERN_SUCCESS, KERN_SUCCESS, ⟨fp, lr, pc⟩, Memory.ofTotal m, heap⟩).returned.map
        (fun r => r.size) = some (2 + MAX_STACK_SIZE) ∧
    (read_thread_state
      ⟨KERN_SUCCESS, KERN_SUCCESS, ⟨fp, lr, pc⟩, Memory.ofTotal m, heap⟩).calls =
        [Call.thread_suspend, Call.thread_get_state, Call.thread_resume] := by
  rw [read_thread_state_walk m fp lr pc heap hpc hlr]
  simp only [Option.map_some']
  rw [read_frames_total_count_max m fp _ 2 hc.1 (fun i _ => cyclic_never_stops m fp N j hc i)]
  exact ⟨rfl, trivial⟩

/-- C9, as stated, fails: on the frame at 16 that links to itself, with `pc = lr = 1`,
`read_thread_state` returns size 1026, which is not the 1024 of `MAX_STACK_SIZE`. -/
theorem read_thread_state_self_linked_size :
    CyclicChain selfLinked 16 0 0 ∧
    (read_thread_state
      ⟨KERN_SUCCESS, KERN_SUCCESS, ⟨16, 1, 1⟩, Memory.ofTotal selfLinked, fun _ => 0⟩).returned.map
        (fun r => r.size) = some 1026 ∧
    (read_thread_state
      ⟨KERN_SUCCESS, KERN_SUCCESS, ⟨16, 1, 1⟩, Memory.ofTotal selfLinked, fun _ => 0⟩).returned.map
        (fun r => r.size) ≠ some MAX_STACK_SIZE := by
  have hc : CyclicChain selfLinked 16 0 0 := by decide
  have h := (read_thread_state_on_cycle selfLinked 16 0 0 1 1 (fun _ => 0) hc
    (by decide) (by decide)).1
  refine ⟨hc, h, ?_⟩
  rw [h]
  decide

/-- C9 (amended). For every chain with a cycle (the link of some node points back to an
earlier node or to the node itself, all nodes up to it having a non-zero masked return
address), with suspension and the register read succeeding and `pc`, `lr` non-zero,
`read_thread_state` returns size `2 + MAX_STACK_SIZE = 1026`, the two leading entries plus
the 1024 entries of the walk, and the Mach calls are suspend, get-state and one resume. -/
theorem read_thread_state_cycle_size (m : Nat → Frame) (fp N j lr pc : Nat) (heap : Buffer)
    (hc : CyclicChain m fp N j) (hpc : pc ≠ 0) (hlr : lr ≠ 0) :
    (read_thread_state
      ⟨KERN_SUCCESS, KERN_SUCCESS, ⟨fp, lr, pc⟩, Memory.ofTotal m, heap⟩).returned.map
        (fun r => r.size) = some (2 + MAX_STACK_SIZE) ∧
    2 + MAX_STACK_SIZE = 1026 ∧
    (read_thread_state
      ⟨KERN_SUCCESS, KERN_SUCCESS, ⟨fp, lr, pc⟩, Memory.ofTotal m, heap⟩).calls =
        [Call.thread_suspend, Call.thread_get_state, Call.thread_resume] :=
  ⟨(read_thread_state_on_cycle m fp N j lr pc heap hc hpc hlr).1, rfl,
    (read_thread_state_on_cycle m fp N j lr pc heap hc hpc hlr).2⟩

/-- Witness of C9 (amended): five frames, the fifth linking back to the third. -/
theorem read_thread_state_cycle_size_witness :
    CyclicChain loopBack 0x50 4 2 ∧ (9 : Nat) ≠ 0 ∧ (7 : Nat) ≠ 0 ∧
    ((read_thread_state
      ⟨KERN_SUCCESS, KERN_SUCCESS, ⟨0x50, 7, 9⟩, Memory.ofTotal loopBack, fun _ => 0⟩).returned.map
        (fun r => r.size) = some (2 + MAX_STACK_SIZE) ∧
    2 + MAX_STACK_SIZE = 1026 ∧
    (read_thread_state
      ⟨KERN_SUCCESS, KERN_SUCCESS, ⟨0x50, 7, 9⟩, Memory.ofTotal loopBack, fun _ => 0⟩).calls =
        [Call.thread_suspend, Call.thread_get_state, Call.thread_resume]) :=
  ⟨by decide, by decide, by decide,
    read_thread_state_cycle_size loopBack 0x50 4 2 7 9 (fun _ => 0) (by decide) (by decide)
      (by decide)⟩

/-! ## C10: where the walk stops -/

/-- C10. For every fully mapped memory and non-zero starting value: if node `k` is the first
node whose masked return address is zero or whose link is null, the count returned is the
smaller of 1024 and `k`; if none of the first 1024 nodes is such a node the count is 1024; the
stores go to the words `0 .. count - 1`, word `i` receiving the masked return address of node
`i`, and every other word of the output (those of the stopping node and of all later nodes
among them) is left as it was. -/
theorem read_frames_stops_at_first (m : Nat → Frame) (fp : Nat) (buf : Buffer) (base : Nat)
    (hfp : fp ≠ 0) :
    (∀ k, (∀ i, i < k → ¬ stops (nodeAt m fp i)) → stops (nodeAt m fp k) →
      (read_frames (Memory.ofTotal m) fp buf base).frames_count = min 1024 k) ∧
    ((∀ i, i < 1024 → ¬ stops (nodeAt m fp i)) →
      (read_frames (Memory.ofTotal m) fp buf base).frames_count = 1024) ∧
    (read_frames (Memory.ofTotal m) fp buf base).stores =
      List.range' base (read_frames (Memory.ofTotal m) fp buf base).frames_count ∧
    (∀ i, i < (read_frames (Memory.ofTotal m) fp buf base).frames_count →
      (read_frames (Memory.ofTotal m) fp buf base).frames (base + i) = masked (nodeAt m fp i)) ∧
    (∀ j, (j < base ∨ base + (read_frames (Memory.ofTotal m) fp buf base).frames_count ≤ j) →
      (read_frames (Memory.ofTotal m) fp buf base).frames j = buf j) := by
  have hp := read_frames_post m fp buf base hfp
  refine ⟨?_, ?_, read_frames_total_stores m fp buf base, ?_, ?_⟩
  · intro k hk hs
    exact read_frames_total_count_min m fp buf base hfp k hk hs
  · intro h
    exact read_frames_total_count_max m fp buf base hfp h
  · intro i hi
    exact (hp.recorded i (Nat.zero_le _) hi).2
  · intro j hj
    exact hp.untouched j (by simpa using hj)

/-- Witness of C10: the walk over the chain of five frames stops at node 4, the root. -/
theorem read_frames_stops_at_first_witness :
    (0x50 : Nat) ≠ 0 ∧
    (∀ i, i < 4 → ¬ stops (nodeAt fiveFrames 0x50 i)) ∧ stops (nodeAt fiveFrames 0x50 4) ∧
    (read_frames (Memory.ofTotal fiveFrames) 0x50 (fun _ => 0) 2).frames_count = min 1024 4 :=
  ⟨by decide, by decide, by decide,
    (read_frames_stops_at_first fiveFrames 0x50 (fun _ => 0) 2 (by decide)).1 4
      (by decide) (by decide)⟩

/-! ## C11: the paths that return size zero -/

/-- C11. Whenever `read_thread_state` returns size 0 (any memory, mapped or not), the run made
no store to the block and the buffer returned is the block as `malloc` handed it out; the
paths that do so are those of a failed `thread_suspend`, a failed `thread_get_state`, and a
zero `pc` or `lr`. -/
theorem read_thread_state_zero_size_untouched (t : Target) (res : thread_state_result)
    (hret : (read_thread_state t).returned = some res) (hsize : res.size = 0) :
    res.frames = t.heap ∧ (read_thread_state t).stores = [] ∧
    (t.suspend_kr ≠ KERN_SUCCESS ∨ t.get_state_kr ≠ KERN_SUCCESS ∨
      t.thread_state.__pc = 0 ∨ t.thread_state.__lr = 0) := by
  by_cases h1 : t.suspend_kr = KERN_SUCCESS
  · by_cases h2 : t.get_state_kr = KERN_SUCCESS
    · by_cases h3 : t.thread_state.__pc = 0 ∨ t.thread_state.__lr = 0
      · have hrun : read_thread_state t =
            { returned := some ⟨0, t.heap⟩,
              calls := [Call.thread_suspend, Call.thread_get_state, Call.thread_resume],
              allocated := MAX_STACK_SIZE, stores := [], loads := [], iterations := 0 } := by
          simp [read_thread_state, h1, h2, h3]
        rw [hrun] at hret ⊢
        simp only [Option.some.injEq] at hret
        rw [← hret]
        exact ⟨rfl, rfl, Or.inr (Or.inr h3)⟩
      · exfalso
        unfold read_thread_state at hret
        simp only [h1, h2, h3, ne_eq, not_true_eq_false, if_false] at hret
        split at hret
        · cases hret
        · simp only [Option.some.injEq] at hret
          rw [← hret] at hsize
          simp only at hsize
          omega
    · have hrun : read_thread_state t =
          { returned := some ⟨0, t.heap⟩,
            calls := [Call.thread_suspend, Call.thread_get_state, Call.thread_resume],
            allocated := MAX_STACK_SIZE, stores := [], loads := [], iterations := 0 } := by
        simp [read_thread_state, h1, h2]
      rw [hrun] at hret ⊢
      simp only [Option.some.injEq] at hret
      rw [← hret]
      exact ⟨rfl, rfl, Or.inr (Or.inl h2)⟩
  · have hrun : read_thread_state t =
        { returned := some ⟨0, t.heap⟩, calls := [Call.thread_suspend],
          allocated := MAX_STACK_SIZE, stores := [], loads := [], iterations := 0 } := by
      simp [read_thread_state, h1]
    rw [hrun] at hret ⊢
    simp only [Option.some.injEq] at hret
    rw [← hret]
    exact ⟨rfl, rfl, Or.inl h1⟩

/-- Witness of C11: the run in which `thread_suspend` fails. -/
theorem read_thread_state_zero_size_untouched_witness :
    (read_thread_state failedSuspend).returned = some ⟨0, failedSuspend.heap⟩ ∧
    (0 : Nat) = 0 ∧
    ((fun _ => 0 : Buffer) = failedSuspend.heap ∧ (read_thread_state failedSuspend).stores = [] ∧
    (failedSuspend.suspend_kr ≠ KERN_SUCCESS ∨ failedSuspend.get_state_kr ≠ KERN_SUCCESS ∨
      failedSuspend.thread_state.__pc = 0 ∨ failedSuspend.thread_state.__lr = 0)) :=
  have h : (read_thread_state failedSuspend).returned = some ⟨0, failedSuspend.heap⟩ := by
    simp [read_thread_state, failedSuspend, KERN_SUCCESS]
  ⟨h, rfl, read_thread_state_zero_size_untouched failedSuspend ⟨0, failedSuspend.heap⟩ h rfl⟩

/-! ## C12: a null frame pointer -/

/-- C12. For every memory (mapped or not), `read_frames` started at 0 returns count 0 and
makes no load, no store and no pass through the loop, leaving the output as it was; hence
when suspension and the register read succeed with non-zero `pc` and `lr` and the frame
pointer register is 0, `read_thread_state` returns size 2. -/
theorem read_frames_null_start (mem : Memory) (buf : Buffer) (base lr pc : Nat)
    (heap : Buffer) (hpc : pc ≠ 0) (hlr : lr ≠ 0) :
    (read_frames mem 0 buf base).frames_count = 0 ∧
    (read_frames mem 0 buf base).stores = [] ∧
    (read_frames mem 0 buf base).loads = [] ∧
    (read_frames mem 0 buf base).iterations = 0 ∧
    (read_frames mem 0 buf base).frames = buf ∧
    (read_thread_state
      ⟨KERN_SUCCESS, KERN_SUCCESS, ⟨0, lr, pc⟩, mem, heap⟩).returned.map
        (fun r => r.size) = some 2 := by
  rw [read_frames_null]
  refine ⟨rfl, rfl, rfl, rfl, rfl, ?_⟩
  simp [read_thread_state, hpc, hlr, read_frames_null]

/-- Witness of C12: `pc = 9`, `lr = 7`, frame pointer 0, nothing mapped. -/
theorem read_frames_null_start_witness :
    (9 : Nat) ≠ 0 ∧ (7 : Nat) ≠ 0 ∧
    ((read_frames unmapped 0 (fun _ => 0) 2).frames_count = 0 ∧
    (read_frames unmapped 0 (fun _ => 0) 2).stores = [] ∧
    (read_frames unmapped 0 (fun _ => 0) 2).loads = [] ∧
    (read_frames unmapped 0 (fun _ => 0) 2).iterations = 0 ∧
    (read_frames unmapped 0 (fun _ => 0) 2).frames = (fun _ => 0) ∧
    (read_thread_state
      ⟨KERN_SUCCESS, KERN_SUCCESS, ⟨0, 7, 9⟩, unmapped, fun _ => 0⟩).returned.map
        (fun r => r.size) = some 2) :=
  ⟨by decide, by decide,
    read_frames_null_start unmapped (fun _ => 0) 2 7 9 (fun _ => 0) (by decide) (by decide)⟩

/-! ## C13: the address mask -/

/-- Masking keeps the low 35 bits of the return address. -/
theorem masked_eq_mod (f : Frame) : masked f = f.return_address % 2 ^ 35 := by
  unfold masked
  have h : (0x7ffffffff : Nat) = 2 ^ 35 - 1 := by norm_num
  rw [h, Nat.and_pow_two_sub_one_eq_mod]

/-- C13. For every fully mapped memory and every `i` below the count returned by
`read_frames`, entry `i` is the return address stored in node `i` ANDed with `0x7ffffffff`; it
is non-zero, below `2 ^ 35`, and unchanged by the mask; and two return addresses that agree
on bits 0 .. 34 (they differ in bits 35 and above only) have the same masked value. -/
theorem read_frames_entries_masked (m : Nat → Frame) (fp : Nat) (buf : Buffer) (base i : Nat)
    (hi : i < (read_frames (Memory.ofTotal m) fp buf base).frames_count) :
    (read_frames (Memory.ofTotal m) fp buf base).frames (base + i) =
      (nodeAt m fp i).return_address &&& 0x7ffffffff ∧
    (read_frames (Memory.ofTotal m) fp buf base).frames (base + i) ≠ 0 ∧
    (read_frames (Memory.ofTotal m) fp buf base).frames (base + i) < 2 ^ 35 ∧
    (read_frames (Memory.ofTotal m) fp buf base).frames (base + i) &&& 0x7ffffffff =
      (read_frames (Memory.ofTotal m) fp buf base).frames (base + i) ∧
    (∀ f g : Frame, f.return_address % 2 ^ 35 = g.return_address % 2 ^ 35 →
      f.return_address &&& 0x7ffffffff = g.return_address &&& 0x7ffffffff) := by
  have hfp : fp ≠ 0 := by
    rintro rfl
    rw [read_frames_null] at hi
    exact absurd hi (Nat.not_lt_zero _)
  obtain ⟨hns, he⟩ := (read_frames_post m fp buf base hfp).recorded i (Nat.zero_le _) hi
  have hmod := masked_eq_mod (nodeAt m fp i)
  have hlt : masked (nodeAt m fp i) < 2 ^ 35 := by
    rw [hmod]; exact Nat.mod_lt _ (by norm_num)
  refine ⟨he, ?_, ?_, ?_, ?_⟩
  · rw [he]; exact fun h => hns (Or.inl h)
  · rw [he]; exact hlt
  · rw [he]
    have h := masked_eq_mod ⟨0, masked (nodeAt m fp i)⟩
    simp only [masked] at h hlt ⊢
    rw [h]
    exact Nat.mod_eq_of_lt hlt
  · intro f g hfg
    have h1 := masked_eq_mod f
    have h2 := masked_eq_mod g
    simp only [masked] at h1 h2
    rw [h1, h2, hfg]

/-- Witness of C13: entry 3 of the walk over the chain of five frames. -/
theorem read_frames_entries_masked_witness :
    3 < (read_frames (Memory.ofTotal fiveFrames) 0x50 (fun _ => 0) 2).frames_count ∧
    ((read_frames (Memory.ofTotal fiveFrames) 0x50 (fun _ => 0) 2).frames (2 + 3) =
      (nodeAt fiveFrames 0x50 3).return_address &&& 0x7ffffffff ∧
    (read_frames (Memory.ofTotal fiveFrames) 0x50 (fun _ => 0) 2).frames (2 + 3) ≠ 0 ∧
    (read_frames (Memory.ofTotal fiveFrames) 0x50 (fun _ => 0) 2).frames (2 + 3) < 2 ^ 35 ∧
    (read_frames (Memory.ofTotal fiveFrames) 0x50 (fun _ => 0) 2).frames (2 + 3) &&& 0x7ffffffff =
      (read_frames (Memory.ofTotal fiveFrames) 0x50 (fun _ => 0) 2).frames (2 + 3) ∧
    (∀ f g : Frame, f.return_address % 2 ^ 35 = g.return_address % 2 ^ 35 →
      f.return_address &&& 0x7ffffffff = g.return_address &&& 0x7ffffffff)) :=
  have h : 3 < (read_frames (Memory.ofTotal fiveFrames) 0x50 (fun _ => 0) 2).frames_count := by
    rw [read_frames_chain_count fiveFrames 0x50 5 _ 2 fiveFrames_wellFormed (by decide)]
    decide
  ⟨h, read_frames_entries_masked fiveFrames 0x50 (fun _ => 0) 2 3 h⟩

/-! ## C14: bounds on the count and on the size -/

/-- On any memory the stores of the loop go to the consecutive words from the entry counter
to the exit counter, and every other word of the output is left as it was. -/
theorem read_frames_loop_span (mem : Memory) (base : Nat) (frame : Frame) (w : Walk) :
    w.frames_count ≤ (read_frames_loop mem base frame w).frames_count ∧
    (read_frames_loop mem base frame w).stores =
      w.stores ++ List.range' (base + w.frames_count)
        ((read_frames_loop mem base frame w).frames_count - w.frames_count) ∧
    (∀ j, (j < base + w.frames_count ∨
        base + (read_frames_loop mem base frame w).frames_count ≤ j) →
      (read_frames_loop mem base frame w).frames j = w.frames j) := by
  refine read_frames_loop_cases mem base
    (fun w r => w.frames_count ≤ r.frames_count ∧
      r.stores = w.stores ++ List.range' (base + w.frames_count)
        (r.frames_count - w.frames_count) ∧
      (∀ j, (j < base + w.frames_count ∨ base + r.frames_count ≤ j) →
        r.frames j = w.frames j))
    ?_ ?_ ?_ ?_ _ frame w rfl
  · intro w; exact ⟨Nat.le_refl _, by simp, fun _ _ => rfl⟩
  · intro f w _ _; exact ⟨Nat.le_refl _, by simp, fun _ _ => rfl⟩
  · intro f next w _ _ _; exact ⟨Nat.le_refl _, by simp, fun _ _ => rfl⟩
  · intro f next w r _ _ _ ih
    obtain ⟨h1, h2, h3⟩ := ih
    simp only at h1 h2 h3
    refine ⟨by omega, ?_, ?_⟩
    · rw [h2]
      obtain ⟨k, hk⟩ : ∃ k, r.frames_count = w.frames_count + 1 + k :=
        ⟨r.frames_count - (w.frames_count + 1), by omega⟩
      have e1 : r.frames_count - (w.frames_count + 1) = k := by omega
      have e2 : r.frames_count - w.frames_count = k + 1 := by omega
      simp only [e1, e2, List.append_assoc, List.singleton_append, List.range'_succ]
      rfl
    · intro j hj
      rw [h3 j (by omega)]
      simp only [Buffer.store]
      rw [if_neg (by omega)]

/-- On any memory the stores of `read_frames` go to the words `0 .. count - 1` of its output
pointer, in order, and every other word is left as it was. -/
theorem read_frames_span (mem : Memory) (fp : Nat) (buf : Buffer) (base : Nat) :
    (read_frames mem fp buf base).stores =
      List.range' base (read_frames mem fp buf base).frames_count ∧
    (∀ j, (j < base ∨ base + (read_frames mem fp buf base).frames_count ≤ j) →
      (read_frames mem fp buf base).frames j = buf j) := by
  by_cases hfp : fp = 0
  · subst hfp; rw [read_frames_null]; exact ⟨rfl, fun _ _ => rfl⟩
  · cases hm : mem fp with
    | none =>
      have e : read_frames mem fp buf base =
          { frames := buf, frames_count := 0, fault := true, iterations := 0, loads := [fp],
            stores := [] } := by
        simp [read_frames, hfp, hm]
      rw [e]; exact ⟨rfl, fun _ _ => rfl⟩
    | some f =>
      have h := read_frames_loop_span mem base f
        { frames := buf, frames_count := 0, fault := false, iterations := 0, loads := [fp],
          stores := [] }
      have e : read_frames mem fp buf base = read_frames_loop mem base f
          { frames := buf, frames_count := 0, fault := false, iterations := 0, loads := [fp],
            stores := [] } := by
        simp [read_frames, hfp, hm]
      rw [e]
      obtain ⟨_, h2, h3⟩ := h
      refine ⟨by simpa using h2, ?_⟩
      intro j hj
      exact h3 j (by simpa using hj)

/-- The size returned by `read_thread_state` on any target. -/
theorem read_thread_state_size_le (t : Target) (res : thread_state_result)
    (hret : (read_thread_state t).returned = some res) : res.size ≤ 2 + MAX_STACK_SIZE := by
  unfold read_thread_state at hret
  by_cases h1 : t.suspend_kr = KERN_SUCCESS
  · by_cases h2 : t.get_state_kr = KERN_SUCCESS
    · by_cases h3 : t.thread_state.__pc = 0 ∨ t.thread_state.__lr = 0
      · simp [h1, h2, h3] at hret
        rw [← hret]; exact Nat.zero_le _
      · simp only [h1, h2, h3, ne_eq, not_true_eq_false, if_false] at hret
        split at hret
        · cases hret
        · simp only [Option.some.injEq] at hret
          rw [← hret]
          have hle := (read_frames_passes t.mem t.thread_state.__fp
            ((t.heap.store 0 t.thread_state.__pc).store 1 t.thread_state.__lr) 2).2.1
          simp only
          omega
    · simp [h1, h2] at hret
      rw [← hret]; exact Nat.zero_le _
  · simp [h1] at hret
    rw [← hret]; exact Nat.zero_le _

/-- C14. For every memory (mapped or not), starting value and output position, `read_frames`
returns a count of at most 1024 and stores exactly to the words `0 .. count - 1` of its
output, every other word being left as it was; every size returned by `read_thread_state` is
at most 1026; and size 1026 is returned on the chain of five frames whose fifth frame links
back to the third. -/
theorem read_frames_count_and_size_bounds (mem : Memory) (fp : Nat) (buf : Buffer)
    (base : Nat) :
    (read_frames mem fp buf base).frames_count ≤ 1024 ∧
    (read_frames mem fp buf base).stores =
      List.range' base (read_frames mem fp buf base).frames_count ∧
    (∀ j, (j < base ∨ base + (read_frames mem fp buf base).frames_count ≤ j) →
      (read_frames mem fp buf base).frames j = buf j) ∧
    (∀ (t : Target) (res : thread_state_result),
      (read_thread_state t).returned = some res → res.size ≤ 1026) ∧
    (read_thread_state
      ⟨KERN_SUCCESS, KERN_SUCCESS, ⟨0x50, 7, 9⟩, Memory.ofTotal loopBack, fun _ => 0⟩).returned.map
        (fun r => r.size) = some 1026 := by
  obtain ⟨hs, hu⟩ := read_frames_span mem fp buf base
  refine ⟨(read_frames_passes mem fp buf base).2.1, hs, hu, ?_, ?_⟩
  · intro t res hret
    exact read_thread_state_size_le t res hret
  · exact (read_thread_state_on_cycle loopBack 0x50 4 2 7 9 (fun _ => 0) (by decide)
      (by decide) (by decide)).1

end MainThreadCallStack
